import Mathlib

/-!
# Verification of the Death2Data gateway credential store (src/gateway.py)

Shallow embedding of the token lifecycle and audit subsystem:
SHA-256 token hashing, token issuance, verification with expiry,
login-event logging with user-agent truncation, and retention pruning.

Modelling conventions:
* Machine words are `Nat` reduced modulo two to the 32 where overflow matters.
* Timestamps: the code stores `datetime.utcnow().isoformat()` strings and
  compares them lexicographically in SQL. ISO-8601 text produced by
  `isoformat()` is order-isomorphic to the underlying instant (the dot
  separating fractional seconds sorts below every digit, so a truncated
  form of a second sorts before any fractional form inside that second),
  hence instants are modelled as `Int` microseconds since the epoch, the
  resolution of Python datetimes, and string comparison becomes `Int`
  comparison.
* The SQLite tables are modelled as lists of rows in insertion order;
  AUTOINCREMENT is an explicit next-id counter starting at 1.
* `sqlite3` failures (a duplicate PRIMARY KEY on token insert) abort the
  operation, modelled with `Option`.
-/

namespace D2D

/-! ## SHA-256 (hashlib.sha256(...).hexdigest()), over Nat arithmetic -/

/-- Truncate to a 32-bit word. -/
def w32 (x : Nat) : Nat := x % 4294967296

/-- Rotate a 32-bit word right by n bits. -/
def rotr32 (n x : Nat) : Nat := w32 ((x >>> n) ||| (x <<< (32 - n)))

def bigSigma0 (x : Nat) : Nat := rotr32 2 x ^^^ rotr32 13 x ^^^ rotr32 22 x

def bigSigma1 (x : Nat) : Nat := rotr32 6 x ^^^ rotr32 11 x ^^^ rotr32 25 x

def smallSigma0 (x : Nat) : Nat := rotr32 7 x ^^^ rotr32 18 x ^^^ (x >>> 3)

def smallSigma1 (x : Nat) : Nat := rotr32 17 x ^^^ rotr32 19 x ^^^ (x >>> 10)

def ch (x y z : Nat) : Nat := (x &&& y) ^^^ ((x ^^^ 4294967295) &&& z)

def maj (x y z : Nat) : Nat := (x &&& y) ^^^ (x &&& z) ^^^ (y &&& z)

/-- The 64 SHA-256 round constants, written in decimal. -/
def K : List Nat :=
  [1116352408, 1899447441, 3049323471, 3921009573, 961987163, 1508970993,
   2453635748, 2870763221, 3624381080, 310598401, 607225278, 1426881987,
   1925078388, 2162078206, 2614888103, 3248222580, 3835390401, 4022224774,
   264347078, 604807628, 770255983, 1249150122, 1555081692, 1996064986,
   2554220882, 2821834349, 2952996808, 3210313671, 3336571891, 3584528711,
   113926993, 338241895, 666307205, 773529912, 1294757372, 1396182291,
   1695183700, 1986661051, 2177026350, 2456956037, 2730485921, 2820302411,
   3259730800, 3345764771, 3516065817, 3600352804, 4094571909, 275423344,
   430227734, 506948616, 659060556, 883997877, 958139571, 1322822218,
   1537002063, 1747873779, 1955562222, 2024104815, 2227730452, 2361852424,
   2428436474, 2756734187, 3204031479, 3329325298]

/-- The initial SHA-256 hash state, written in decimal. -/
def H0 : List Nat :=
  [1779033703, 3144134277, 1013904242, 2773480762, 1359893119, 2600822924,
   528734635, 1541459225]

/-- Extend the 16 message words of a block to the 64-word schedule;
the fuel argument counts the 48 remaining extension steps. -/
def extendW : Nat → List Nat → List Nat
  | 0, w => w
  | n + 1, w =>
    let t := w.length
    let nw := w32 (smallSigma1 (w.getD (t - 2) 0) + w.getD (t - 7) 0 +
                   smallSigma0 (w.getD (t - 15) 0) + w.getD (t - 16) 0)
    extendW n (w ++ [nw])

/-- One SHA-256 compression round on the 8-word working state. -/
def compressRound (kt wt : Nat) (s : List Nat) : List Nat :=
  match s with
  | [a, b, c, d, e, f, g, h] =>
    let t1 := w32 (h + bigSigma1 e + ch e f g + kt + wt)
    let t2 := w32 (bigSigma0 a + maj a b c)
    [w32 (t1 + t2), a, b, c, w32 (d + t1), e, f, g]
  | s => s

/-- Process one 16-word block into the running 8-word hash state. -/
def processBlock (h : List Nat) (block : List Nat) : List Nat :=
  let w := extendW 48 block
  let s := (K.zip w).foldl (fun st kw => compressRound kw.1 kw.2 st) h
  List.zipWith (fun x y => w32 (x + y)) h s

/-- SHA-256 padding of a byte list: append 0x80, zeros to 56 mod 64,
then the bit length as 8 big-endian bytes. -/
def padMessage (msg : List Nat) : List Nat :=
  let L := msg.length
  let zeros := List.replicate ((119 - L % 64) % 64) 0
  let bitLen := 8 * L
  msg ++ [128] ++ zeros ++
    [(bitLen >>> 56) % 256, (bitLen >>> 48) % 256, (bitLen >>> 40) % 256, (bitLen >>> 32) % 256,
     (bitLen >>> 24) % 256, (bitLen >>> 16) % 256, (bitLen >>> 8) % 256, bitLen % 256]

/-- Group bytes into 32-bit big-endian words. -/
def bytesToWords : List Nat → List Nat
  | b0 :: b1 :: b2 :: b3 :: rest =>
    (((b0 * 256 + b1) * 256 + b2) * 256 + b3) :: bytesToWords rest
  | _ => []

/-- Split a word list into 16-word blocks. -/
def toBlocks16 (ws : List Nat) : List (List Nat) :=
  if h : ws = [] then []
  else (ws.take 16) :: toBlocks16 (ws.drop 16)
termination_by ws.length
decreasing_by
  simp only [List.length_drop]
  cases ws with
  | nil => exact absurd rfl h
  | cons a l => simp; omega

/-- UTF-8 encoding of one character (Python str.encode()). -/
def utf8EncodeChar (c : Char) : List Nat :=
  let n := c.toNat
  if n < 128 then [n]
  else if n < 2048 then [192 + n / 64, 128 + n % 64]
  else if n < 65536 then [224 + n / 4096, 128 + (n / 64) % 64, 128 + n % 64]
  else [240 + n / 262144, 128 + (n / 4096) % 64, 128 + (n / 64) % 64, 128 + n % 64]

/-- UTF-8 bytes of a string (Python token.encode()). -/
def strToBytes (s : String) : List Nat := (s.data.map utf8EncodeChar).flatten

/-- Hexadecimal digit characters, lowercase. -/
def hexDigits : List Char := "0123456789abcdef".data

/-- Lowercase hex character of a nibble. -/
def hexChar (n : Nat) : Char := hexDigits.getD (n % 16) '0'

/-- The 8 hex characters of a 32-bit word, big-endian. -/
def wordHex (w : Nat) : List Char :=
  [hexChar (w >>> 28), hexChar (w >>> 24), hexChar (w >>> 20), hexChar (w >>> 16),
   hexChar (w >>> 12), hexChar (w >>> 8), hexChar (w >>> 4), hexChar w]

/-- hashlib.sha256(s.encode()).hexdigest(). -/
def sha256hex (s : String) : String :=
  let blocks := toBlocks16 (bytesToWords (padMessage (strToBytes s)))
  let final := blocks.foldl processBlock H0
  ⟨(final.map wordHex).flatten⟩

/-! ## Python string primitives used by the gateway -/

/-- Python str.startswith(pre): the first len(pre) code points equal pre. -/
def py_startswith (s pre : String) : Bool := s.data.take pre.data.length = pre.data

/-- Python truthiness of a string: non-empty. -/
def py_truthy (s : String) : Bool := !s.data.isEmpty

/-- Python s[:n]: the first n code points. -/
def py_slice (s : String) (n : Nat) : String := ⟨s.data.take n⟩

/-! ## Data model: the two SQLite tables of gateway.py -/

/-- A row of the `tokens` table: hash TEXT PRIMARY KEY, created_at, expires_at. -/
structure TokenRow where
  hash : String
  created_at : Int
  expires_at : Int
deriving Repr, DecidableEq

/-- A row of the `logins` table:
id INTEGER PRIMARY KEY AUTOINCREMENT, token_hash, ip_address, user_agent, timestamp. -/
structure LoginRow where
  id : Nat
  token_hash : String
  ip_address : String
  user_agent : String
  timestamp : Int
deriving Repr, DecidableEq

/-- The database: both tables in insertion order plus the AUTOINCREMENT counter. -/
structure DB where
  tokens : List TokenRow
  logins : List LoginRow
  nextLoginId : Nat
deriving Repr, DecidableEq

/-- init_database() on a fresh store: empty tables, AUTOINCREMENT starts at 1. -/
def init_database : DB := ⟨[], [], 1⟩

/-- LOGIN_RETENTION_DAYS = 90. -/
def LOGIN_RETENTION_DAYS : Nat := 90

/-- Microseconds per day: datetime.timedelta(days=n) at datetime resolution. -/
def days (n : Nat) : Int := (n : Int) * 86400000000

/-! ## The credential-store operations -/

/-- hash_token: SHA-256 hex digest of the token. -/
def hash_token (token : String) : String := sha256hex token

/-- generate_token: build "d2d_" ++ random urlsafe text, store only the hash
with created_at = now and expires_at = now + 28 days, return (plaintext, hash).
A duplicate PRIMARY KEY makes the INSERT raise, aborting the operation (none). -/
def generate_token (db : DB) (now : Int) (random_bytes : String) :
    Option ((String × String) × DB) :=
  let token := "d2d_" ++ random_bytes
  let token_hash := hash_token token
  if db.tokens.any (fun r => r.hash = token_hash) then none
  else
    some ((token, token_hash),
      { db with tokens := db.tokens ++ [⟨token_hash, now, now + days 28⟩] })

/-- verify_token: None or empty or missing "d2d_" tag fails closed; otherwise
look up the row by hash and require now strictly before expires_at.
The candidate is Option String because callers pass None when no token came. -/
def verify_token (db : DB) (now : Int) (token : Option String) : Bool :=
  match token with
  | none => false
  | some t =>
    if !py_truthy t || !py_startswith t "d2d_" then false
    else
      match db.tokens.find? (fun r => r.hash = hash_token t) with
      | none => false
      | some row => now < row.expires_at

/-- The number of SELECT statements verify_token executes against the store:
0 on the cheap rejection path, 1 otherwise (mirrors the source line by line). -/
def verify_token_queries (db : DB) (now : Int) (token : Option String) : Nat :=
  match token with
  | none => 0
  | some t =>
    if !py_truthy t || !py_startswith t "d2d_" then 0
    else 1

/-- log_login: insert one row with the token hash, the IP, the user agent
truncated to 200 code points with None mapped to "", and the current time. -/
def log_login (db : DB) (now : Int) (token ip : String) (user_agent : Option String) : DB :=
  let token_hash := hash_token token
  { db with
    logins := db.logins ++ [⟨db.nextLoginId, token_hash, ip,
                             py_slice (user_agent.getD "") 200, now⟩],
    nextLoginId := db.nextLoginId + 1 }

/-- cleanup_old_logins: DELETE FROM logins WHERE timestamp < now - 90 days. -/
def cleanup_old_logins (db : DB) (now : Int) : DB :=
  let cutoff := now - days LOGIN_RETENTION_DAYS
  { db with logins := db.logins.filter (fun r => !(r.timestamp < cutoff : Bool)) }

/-! ## Operation traces of the credential store -/

/-- One invocation of a credential-store operation, with its arguments.
There is no constructor carrying a search query: the store exposes no such input. -/
inductive Op where
  | issue (random_bytes : String)
  | verify (candidate : Option String)
  | recordLogin (token ip : String) (user_agent : Option String)
  | prune
deriving Repr, DecidableEq

/-- Effect of one operation, invoked at instant now, on the stored state.
verify_token only SELECTs, so it leaves the state unchanged; a failed token
INSERT raises before COMMIT, so it also leaves the state unchanged. -/
def step (db : DB) (now : Int) : Op → DB
  | .issue rb =>
    match generate_token db now rb with
    | some (_, db2) => db2
    | none => db
  | .verify _ => db
  | .recordLogin tok ip ua => log_login db now tok ip ua
  | .prune => cleanup_old_logins db now

/-- Run a list of timestamped operations from a state. -/
def run (db : DB) : List (Int × Op) → DB
  | [] => db
  | (t, op) :: rest => run (step db t op) rest

/-- Well-formedness enforced by the PRIMARY KEY on tokens.hash:
no two token rows share a hash. -/
def TokensWF (db : DB) : Prop := (db.tokens.map TokenRow.hash).Nodup

/-! ## Lemmas: the hex digest can never collide with a d2d_-prefixed plaintext -/

theorem hexChar_mem (n : Nat) : hexChar n ∈ hexDigits := by
  have h : n % 16 < hexDigits.length := by
    have h2 : n % 16 < 16 := Nat.mod_lt _ (by decide)
    have h3 : hexDigits.length = 16 := by decide
    omega
  rw [hexChar, List.getD_eq_getElem _ _ h]
  exact List.getElem_mem h

theorem mem_wordHex_mem_hexDigits {w : Nat} {c : Char} (h : c ∈ wordHex w) :
    c ∈ hexDigits := by
  simp only [wordHex, List.mem_cons, List.not_mem_nil, or_false] at h
  rcases h with rfl | rfl | rfl | rfl | rfl | rfl | rfl | rfl <;> exact hexChar_mem _

theorem sha256hex_data_hex (s : String) : ∀ c ∈ (sha256hex s).data, c ∈ hexDigits := by
  intro c hc
  have hd : (sha256hex s).data =
      (((toBlocks16 (bytesToWords (padMessage (strToBytes s)))).foldl processBlock H0).map
        wordHex).flatten := rfl
  rw [hd, List.mem_flatten] at hc
  obtain ⟨l, hl, hcl⟩ := hc
  rw [List.mem_map] at hl
  obtain ⟨w, _, rfl⟩ := hl
  exact mem_wordHex_mem_hexDigits hcl

theorem sha256hex_ne_d2d (s r : String) : sha256hex s ≠ "d2d_" ++ r := by
  intro h
  have hd : (sha256hex s).data = ("d2d_" ++ r).data := by rw [h]
  rw [String.data_append] at hd
  have hmem : '_' ∈ (sha256hex s).data := by
    rw [hd, show "d2d_".data = ['d', '2', 'd', '_'] from rfl]
    simp
  have := sha256hex_data_hex s '_' hmem
  exact absurd this (by decide)

/-! ## Lemmas: effect of each operation on the two tables -/

theorem step_issue_logins (db : DB) (t : Int) (rb : String) :
    (step db t (.issue rb)).logins = db.logins := by
  by_cases hc : db.tokens.any (fun r => r.hash = hash_token ("d2d_" ++ rb)) = true
  · simp [step, generate_token, hc]
  · simp [step, generate_token, hc]

theorem step_issue_tokens (db : DB) (t : Int) (rb : String) :
    (step db t (.issue rb)).tokens = db.tokens ∨
    (step db t (.issue rb)).tokens =
      db.tokens ++ [⟨hash_token ("d2d_" ++ rb), t, t + days 28⟩] := by
  by_cases hc : db.tokens.any (fun r => r.hash = hash_token ("d2d_" ++ rb)) = true
  · left; simp [step, generate_token, hc]
  · right; simp [step, generate_token, hc]

theorem step_recordLogin_eq (db : DB) (t : Int) (tok ip : String) (ua : Option String) :
    step db t (.recordLogin tok ip ua) = log_login db t tok ip ua := rfl

theorem step_prune_eq (db : DB) (t : Int) :
    step db t .prune = cleanup_old_logins db t := rfl

theorem step_verify_eq (db : DB) (t : Int) (c : Option String) :
    step db t (.verify c) = db := rfl

/-! ## The claims -/

/-- C5: verify_token leaves the stored state (tokens and logins tables)
unchanged, whatever boolean it returns: inserting a verify call anywhere in a
trace of credential-store operations does not change the resulting state. -/
theorem verify_token_no_side_effect
    (db : DB) (pre post : List (Int × Op)) (t : Int) (c : Option String) :
    step db t (.verify c) = db ∧
    run db (pre ++ (t, Op.verify c) :: post) = run db (pre ++ post) := by
  refine ⟨rfl, ?_⟩
  induction pre generalizing db with
  | nil => rfl
  | cons p rest ih =>
    obtain ⟨tp, opp⟩ := p
    simpa [run] using ih (step db tp opp)

/-- C7: cleanup_old_logins deletes exactly the login rows whose timestamp is
strictly older than now minus 90 days, keeps every other row unchanged and in
order, and does not touch the tokens table. -/
theorem cleanup_old_logins_spec (db : DB) (now : Int) :
    (cleanup_old_logins db now).logins =
      db.logins.filter (fun r => now - days LOGIN_RETENTION_DAYS ≤ r.timestamp) ∧
    (∀ r, r ∈ (cleanup_old_logins db now).logins ↔
      r ∈ db.logins ∧ ¬(r.timestamp < now - days LOGIN_RETENTION_DAYS)) ∧
    (cleanup_old_logins db now).logins.Sublist db.logins ∧
    (cleanup_old_logins db now).tokens = db.tokens := by
  have hpt : ∀ r : LoginRow, (!(r.timestamp < now - days LOGIN_RETENTION_DAYS : Bool)) =
      (now - days LOGIN_RETENTION_DAYS ≤ r.timestamp : Bool) := by
    intro r
    by_cases h : r.timestamp < now - days LOGIN_RETENTION_DAYS <;> simp [h] <;> omega
  refine ⟨?_, ?_, ?_, rfl⟩
  · exact List.filter_congr (fun r _ => hpt r)
  · intro r
    simp only [cleanup_old_logins, List.mem_filter]
    constructor
    · rintro ⟨hmem, hb⟩
      refine ⟨hmem, ?_⟩
      simpa using hb
    · rintro ⟨hmem, hb⟩
      refine ⟨hmem, ?_⟩
      simpa using hb
  · exact List.filter_sublist _

/-- C8 counterexample: with the clock moved forward (not backwards) between
the two runs and no new login inserted, the second run of cleanup_old_logins
deletes a row that survived the first run: a login stamped exactly 90 days
before the first run survives it but is strictly older than the later cutoff. -/
theorem cleanup_second_run_deletes :
    days 90 ≤ days 90 + 1 ∧
    cleanup_old_logins
        (cleanup_old_logins ⟨[], [⟨1, "h", "ip", "ua", 0⟩], 2⟩ (days 90)) (days 90 + 1) ≠
      cleanup_old_logins ⟨[], [⟨1, "h", "ip", "ua", 0⟩], 2⟩ (days 90) := by
  constructor
  · omega
  · decide

/-- C8 amended: cleanup_old_logins is idempotent when the second run happens
at the same clock instant as the first: it then deletes nothing and leaves the
state produced by the first run unchanged. -/
theorem cleanup_old_logins_idempotent (db : DB) (now : Int) :
    cleanup_old_logins (cleanup_old_logins db now) now = cleanup_old_logins db now := by
  simp only [cleanup_old_logins, List.filter_filter]
  congr 1
  exact List.filter_congr (fun r _ => by by_cases h : r.timestamp < now - days LOGIN_RETENTION_DAYS <;> simp [h])

/-- C9: log_login appends exactly one row holding the SHA-256 hex digest of
the token (the same hash_token used by verify_token), the IP, the user agent
truncated to at most 200 code points, and the current timestamp. -/
theorem log_login_spec (db : DB) (now : Int) (tok ip : String) (ua : Option String) :
    (log_login db now tok ip ua).logins =
      db.logins ++ [⟨db.nextLoginId, sha256hex tok, ip, py_slice (ua.getD "") 200, now⟩] ∧
    hash_token tok = sha256hex tok ∧
    (py_slice (ua.getD "") 200).length ≤ 200 ∧
    (log_login db now tok ip ua).tokens = db.tokens ∧
    (log_login db now tok ip ua).nextLoginId = db.nextLoginId + 1 := by
  refine ⟨rfl, rfl, ?_, rfl, rfl⟩
  have : (py_slice (ua.getD "") 200).length = ((ua.getD "").data.take 200).length := rfl
  rw [this, List.length_take]
  omega

/-- C10: log_login validates nothing: for every token string it inserts
exactly one row with token_hash = SHA-256(token), never consulting the tokens
table (the inserted rows are the same whatever the tokens table holds), and a
None user agent is stored as the empty string. -/
theorem log_login_unconditional (db : DB) (now : Int) (tok ip : String) (ua : Option String) :
    (log_login db now tok ip ua).logins =
      db.logins ++ [⟨db.nextLoginId, hash_token tok, ip, py_slice (ua.getD "") 200, now⟩] ∧
    (∀ tks : List TokenRow,
      (log_login ⟨tks, db.logins, db.nextLoginId⟩ now tok ip ua).logins =
        (log_login db now tok ip ua).logins) ∧
    (log_login db now tok ip ua).tokens = db.tokens ∧
    (log_login db now tok ip none).logins =
      db.logins ++ [⟨db.nextLoginId, hash_token tok, ip, "", now⟩] := by
  refine ⟨rfl, fun tks => rfl, rfl, rfl⟩

/-- C1: over any trace of credential-store operations, every persisted login
row either predates the trace or was written by a recordLogin call and
consists exactly of the token hash, the IP address, the truncated user agent
and the invocation timestamp. The operations (the Op type) carry no field for
search-query content, so no operation can persist a search query. -/
theorem logins_only_from_recordLogin (db : DB) (ops : List (Int × Op)) :
    ∀ row ∈ (run db ops).logins, row ∈ db.logins ∨
      ∃ t tok ip ua, (t, Op.recordLogin tok ip ua) ∈ ops ∧
        row.token_hash = hash_token tok ∧ row.ip_address = ip ∧
        row.user_agent = py_slice (ua.getD "") 200 ∧ row.timestamp = t := by
  induction ops generalizing db with
  | nil => exact fun row hr => Or.inl hr
  | cons p rest ih =>
    obtain ⟨t, op⟩ := p
    intro row hr
    rcases ih (step db t op) row hr with h2 | ⟨t2, tok, ip, ua, hmem, h3⟩
    · cases op with
      | issue rb =>
        rw [step_issue_logins] at h2
        exact Or.inl h2
      | verify c => exact Or.inl h2
      | recordLogin tok ip ua =>
        rw [step_recordLogin_eq] at h2
        simp only [log_login] at h2
        rcases List.mem_append.mp h2 with hm | hm
        · exact Or.inl hm
        · right
          simp only [List.mem_singleton] at hm
          subst hm
          exact ⟨t, tok, ip, ua, List.mem_cons_self _ _, rfl, rfl, rfl, rfl⟩
      | prune =>
        rw [step_prune_eq] at h2
        simp only [cleanup_old_logins] at h2
        exact Or.inl (List.mem_filter.mp h2).1
    · exact Or.inr ⟨t2, tok, ip, ua, List.mem_cons_of_mem _ hmem, h3⟩

/-- C1 witness: a concrete trace with one recordLogin produces exactly one
login row, and the theorem attributes it to that recordLogin. -/
theorem logins_only_from_recordLogin_w :
    (⟨1, hash_token "tok", "ip", py_slice "" 200, 5⟩ : LoginRow) ∈
      (run init_database [(5, Op.recordLogin "tok" "ip" none)]).logins ∧
    ((⟨1, hash_token "tok", "ip", py_slice "" 200, 5⟩ : LoginRow) ∈ init_database.logins ∨
      ∃ t tok ip ua, (t, Op.recordLogin tok ip ua) ∈ [((5 : Int), Op.recordLogin "tok" "ip" none)] ∧
        (⟨1, hash_token "tok", "ip", py_slice "" 200, 5⟩ : LoginRow).token_hash = hash_token tok ∧
        (⟨1, hash_token "tok", "ip", py_slice "" 200, 5⟩ : LoginRow).ip_address = ip ∧
        (⟨1, hash_token "tok", "ip", py_slice "" 200, 5⟩ : LoginRow).user_agent =
          py_slice (ua.getD "") 200 ∧
        (⟨1, hash_token "tok", "ip", py_slice "" 200, 5⟩ : LoginRow).timestamp = t) := by
  have hm : (⟨1, hash_token "tok", "ip", py_slice "" 200, 5⟩ : LoginRow) ∈
      (run init_database [(5, Op.recordLogin "tok" "ip" none)]).logins :=
    List.mem_singleton.mpr rfl
  exact ⟨hm, logins_only_from_recordLogin init_database _ _ hm⟩

/-- C6: over any trace of credential-store operations the tokens table is
append-only (existing rows are never modified, reordered or deleted), and
every appended row was written by an issue call at some instant t with
created_at = t and expires_at = created_at + 28 days, never changed later. -/
theorem tokens_append_only (db : DB) (ops : List (Int × Op)) :
    ∃ new, (run db ops).tokens = db.tokens ++ new ∧
      ∀ r ∈ new, r.expires_at = r.created_at + days 28 ∧
        ∃ t rb, (t, Op.issue rb) ∈ ops ∧
          r = ⟨hash_token ("d2d_" ++ rb), t, t + days 28⟩ := by
  induction ops generalizing db with
  | nil => exact ⟨[], (List.append_nil _).symm, fun r hr => absurd hr (List.not_mem_nil _)⟩
  | cons p rest ih =>
    obtain ⟨t, op⟩ := p
    obtain ⟨new, hnew, hprop⟩ := ih (step db t op)
    cases op with
    | issue rb =>
      rcases step_issue_tokens db t rb with he | he
      · refine ⟨new, ?_, fun r hr => ?_⟩
        · show (run (step db t (.issue rb)) rest).tokens = _
          rw [hnew, he]
        · obtain ⟨h1, t2, rb2, hmem, h2⟩ := hprop r hr
          exact ⟨h1, t2, rb2, List.mem_cons_of_mem _ hmem, h2⟩
      · refine ⟨⟨hash_token ("d2d_" ++ rb), t, t + days 28⟩ :: new, ?_, fun r hr => ?_⟩
        · show (run (step db t (.issue rb)) rest).tokens = _
          rw [hnew, he]
          simp
        · rcases List.mem_cons.mp hr with hr | hr
          · subst hr
            exact ⟨rfl, t, rb, List.mem_cons_self _ _, rfl⟩
          · obtain ⟨h1, t2, rb2, hmem, h2⟩ := hprop r hr
            exact ⟨h1, t2, rb2, List.mem_cons_of_mem _ hmem, h2⟩
    | verify c =>
      exact ⟨new, hnew, fun r hr =>
        (hprop r hr).imp_right (fun ⟨t2, rb2, hmem, h2⟩ =>
          ⟨t2, rb2, List.mem_cons_of_mem _ hmem, h2⟩)⟩
    | recordLogin tok ip ua =>
      exact ⟨new, hnew, fun r hr =>
        (hprop r hr).imp_right (fun ⟨t2, rb2, hmem, h2⟩ =>
          ⟨t2, rb2, List.mem_cons_of_mem _ hmem, h2⟩)⟩
    | prune =>
      exact ⟨new, hnew, fun r hr =>
        (hprop r hr).imp_right (fun ⟨t2, rb2, hmem, h2⟩ =>
          ⟨t2, rb2, List.mem_cons_of_mem _ hmem, h2⟩)⟩

theorem find?_append_none {α : Type} (p : α → Bool) (l1 l2 : List α)
    (h : l1.find? p = none) : (l1 ++ l2).find? p = l2.find? p := by
  induction l1 with
  | nil => rfl
  | cons a l ih =>
    rw [List.find?_cons] at h
    cases hp : p a with
    | false =>
      simp only [hp] at h
      rw [List.cons_append, List.find?_cons]
      simp only [hp]
      exact ih h
    | true => simp [hp] at h

/-- C2: a successful generate_token returns plaintext "d2d_" ++ random text
whose SHA-256 hex digest is the returned hash; the persisted row holds only
that hash and the two timestamps, the hash differs from the plaintext (a hex
digest cannot carry the d2d_ tag), the logins table is untouched, and
verify_token on the plaintext returns true at any instant before
now + 28 days. -/
theorem generate_token_spec (db : DB) (now : Int) (rb tk hs : String) (db2 : DB)
    (hgen : generate_token db now rb = some ((tk, hs), db2)) :
    tk = "d2d_" ++ rb ∧ hs = hash_token tk ∧
    db2.tokens = db.tokens ++ [⟨hs, now, now + days 28⟩] ∧
    db2.logins = db.logins ∧ db2.nextLoginId = db.nextLoginId ∧
    hs ≠ tk ∧
    ∀ m : Int, m < now + days 28 → verify_token db2 m (some tk) = true := by
  by_cases hc : db.tokens.any (fun r => r.hash = hash_token ("d2d_" ++ rb)) = true
  · simp [generate_token, hc] at hgen
  · rw [Bool.not_eq_true] at hc
    simp only [generate_token, hc, Bool.false_eq_true, if_false, Option.some.injEq,
      Prod.mk.injEq] at hgen
    obtain ⟨⟨htk, hhs⟩, hdb⟩ := hgen
    subst htk
    subst hhs
    subst hdb
    have hpre : py_startswith ("d2d_" ++ rb) "d2d_" = true := by
      simp only [py_startswith, String.data_append,
        show "d2d_".data = ['d', '2', 'd', '_'] from rfl]
      simp [List.take_succ_cons]
    have htr : py_truthy ("d2d_" ++ rb) = true := by
      simp [py_truthy, String.data_append,
        show "d2d_".data = ['d', '2', 'd', '_'] from rfl]
    refine ⟨rfl, rfl, rfl, rfl, rfl, (sha256hex_ne_d2d _ rb), fun m hm => ?_⟩
    simp only [verify_token, htr, hpre, Bool.not_true, Bool.or_self, Bool.false_eq_true,
      if_false]
    have hn : db.tokens.find? (fun r => r.hash = hash_token ("d2d_" ++ rb)) = none := by
      rw [List.find?_eq_none]
      intro r hr
      have := (List.any_eq_false.mp hc) r hr
      simpa using this
    rw [find?_append_none _ _ _ hn]
    have hfind : List.find? (fun r : TokenRow => decide (r.hash = hash_token ("d2d_" ++ rb)))
        ([⟨hash_token ("d2d_" ++ rb), now, now + days 28⟩] : List TokenRow) =
        some (⟨hash_token ("d2d_" ++ rb), now, now + days 28⟩ : TokenRow) := by
      simp [List.find?_cons]
    rw [hfind]
    simpa using hm

/-- C2 witness: issuing from the empty store at instant 0 with random text
"r" yields a plaintext whose hash differs from it, and verify_token accepts
the plaintext at instant 1, before expiry. -/
theorem generate_token_spec_w :
    hash_token ("d2d_" ++ "r") ≠ "d2d_" ++ "r" ∧
    verify_token ⟨[⟨hash_token ("d2d_" ++ "r"), 0, 0 + days 28⟩], [], 1⟩ 1
      (some ("d2d_" ++ "r")) = true := by
  have hs := generate_token_spec init_database 0 "r" ("d2d_" ++ "r")
      (hash_token ("d2d_" ++ "r")) ⟨[⟨hash_token ("d2d_" ++ "r"), 0, 0 + days 28⟩], [], 1⟩ rfl
  exact ⟨fun hh => hs.2.2.2.2.2.1 hh, hs.2.2.2.2.2.2 1 (by decide)⟩

/-- C3: for a non-empty candidate carrying the d2d_ tag, over a store whose
token hashes are unique (the PRIMARY KEY invariant), verify_token returns
true iff a row with hash = SHA-256(candidate) exists and now is strictly
before its expires_at; it returns false at the exact expiry instant and true
one microsecond (one unit of datetime resolution) before it. -/
theorem verify_token_iff (db : DB) (now : Int) (t : String)
    (hwf : TokensWF db) (h1 : py_truthy t = true) (h2 : py_startswith t "d2d_" = true) :
    (verify_token db now (some t) = true ↔
      ∃ r ∈ db.tokens, r.hash = hash_token t ∧ now < r.expires_at) ∧
    ∀ r ∈ db.tokens, r.hash = hash_token t →
      verify_token db r.expires_at (some t) = false ∧
      verify_token db (r.expires_at - 1) (some t) = true := by
  have key : ∀ m : Int, verify_token db m (some t) = true ↔
      ∃ r ∈ db.tokens, r.hash = hash_token t ∧ m < r.expires_at := by
    intro m
    simp only [verify_token, h1, h2, Bool.not_true, Bool.or_self, Bool.false_eq_true, if_false]
    cases hf : db.tokens.find? (fun r => r.hash = hash_token t) with
    | none =>
      simp only [Bool.false_eq_true, false_iff]
      rintro ⟨r, hr, hh, _⟩
      have := List.find?_eq_none.mp hf r hr
      simp [hh] at this
    | some row =>
      have hrowmem := List.mem_of_find?_eq_some hf
      have hrowp : row.hash = hash_token t := by
        have := List.find?_some hf
        simpa using this
      simp only [decide_eq_true_eq]
      constructor
      · intro hlt
        exact ⟨row, hrowmem, hrowp, hlt⟩
      · rintro ⟨r, hr, hh, hlt⟩
        have heq : r = row :=
          List.inj_on_of_nodup_map hwf hr hrowmem (hh.trans hrowp.symm)
        subst heq
        exact hlt
  refine ⟨key now, fun r hr hh => ⟨?_, ?_⟩⟩
  · cases hb : verify_token db r.expires_at (some t) with
    | false => rfl
    | true =>
      obtain ⟨r2, hr2, hh2, hlt⟩ := (key r.expires_at).mp hb
      have heq : r2 = r := List.inj_on_of_nodup_map hwf hr2 hr (hh2.trans hh.symm)
      subst heq
      omega
  · exact (key (r.expires_at - 1)).mpr ⟨r, hr, hh, by omega⟩

/-- C3 witness: a store holding one token row with expiry at 28 days; the
characterization holds for the matching candidate at instant 5. -/
theorem verify_token_iff_w :
    verify_token ⟨[⟨hash_token "d2d_x", 0, days 28⟩], [], 1⟩ 5 (some "d2d_x") = true ↔
      ∃ r ∈ ([⟨hash_token "d2d_x", 0, days 28⟩] : List TokenRow),
        r.hash = hash_token "d2d_x" ∧ (5 : Int) < r.expires_at := by
  exact (verify_token_iff ⟨[⟨hash_token "d2d_x", 0, days 28⟩], [], 1⟩ 5 "d2d_x"
    (by simp [TokensWF]) (by decide) (by decide)).1

/-- C4: a None, empty, or wrongly tagged candidate makes verify_token return
false with zero SELECTs against the store; the result on that path does not
depend on the stored state at all. -/
theorem verify_token_fails_closed (db : DB) (now : Int) (c : Option String)
    (h : c = none ∨ ∃ t, c = some t ∧
      (py_truthy t = false ∨ py_startswith t "d2d_" = false)) :
    verify_token db now c = false ∧ verify_token_queries db now c = 0 ∧
    ∀ db2 : DB, verify_token db2 now c = verify_token db now c := by
  rcases h with rfl | ⟨t, rfl, ht⟩
  · exact ⟨rfl, rfl, fun db2 => rfl⟩
  · rcases ht with ht | ht
    · refine ⟨?_, ?_, fun db2 => ?_⟩ <;> simp [verify_token, verify_token_queries, ht]
    · refine ⟨?_, ?_, fun db2 => ?_⟩ <;> simp [verify_token, verify_token_queries, ht]

/-- C4 witness: the wrongly tagged candidate of the spec's test list is
rejected with no storage lookup. -/
theorem verify_token_fails_closed_w :
    verify_token init_database 0 (some "wrong-prefix-xyz") = false ∧
    verify_token_queries init_database 0 (some "wrong-prefix-xyz") = 0 := by
  have hs := verify_token_fails_closed init_database 0 (some "wrong-prefix-xyz")
      (Or.inr ⟨"wrong-prefix-xyz", rfl, Or.inr (by decide)⟩)
  exact ⟨hs.1, hs.2.1⟩

end D2D
